import Mathlib

/-!
A verification development for the ResearchLens backend resilience layer
(`backend/utils.py`) and its expiring cache (`backend/cache.py`).

The Python source is shallowly embedded:
* timestamps, delays and intervals are rationals (`ℚ`), with an idealized
  clock in which `time.sleep(d)` advances wall time by exactly `d`;
* 32-bit machine arithmetic inside MD5 is `Nat` arithmetic with explicit
  `% 4294967296`;
* a Python `dict` is an association list whose keys are unique;
* a fallible operation is a function `ℕ → Except ε α` giving the outcome of
  each successive invocation, and `isinstance(e, exceptions)` is a Boolean
  predicate `retryable : ε → Bool` on error values.
-/

/-! ### Python string primitives

`cache.py` normalizes a topic with `topic.lower().strip()` and then hashes the
UTF-8 encoding of the result (`normalized.encode()`).  The inputs of interest
are ASCII, so `lower` is modelled on the ASCII range and `strip` removes the
ASCII whitespace characters Python strips. -/

/-- `str.lower` on one character (ASCII range). -/
def pyLowerChar (c : Char) : Char :=
  if 'A' ≤ c ∧ c ≤ 'Z' then Char.ofNat (c.toNat + 32) else c

/-- `str.lower`. -/
def pyLower (s : String) : String :=
  String.mk (s.toList.map pyLowerChar)

/-- The whitespace characters removed by `str.strip`. -/
def pyIsSpace (c : Char) : Bool :=
  c == ' ' || c == '\t' || c == '\n' || c == '\r' ||
    c == Char.ofNat 11 || c == Char.ofNat 12

/-- `str.strip`: drop leading and trailing whitespace. -/
def pyStrip (s : String) : String :=
  String.mk (((s.toList.dropWhile pyIsSpace).reverse.dropWhile pyIsSpace).reverse)

/-- The key normalization of `SimpleCache._generate_key`:
`topic.lower().strip()`. -/
def pyNormalize (topic : String) : String :=
  pyStrip (pyLower topic)

/-- `str.encode()`: UTF-8 encoding, one code point to one to four bytes. -/
def utf8Char (c : Char) : List ℕ :=
  let n := c.toNat
  if n < 128 then [n]
  else if n < 2048 then [192 + n / 64, 128 + n % 64]
  else if n < 65536 then [224 + n / 4096, 128 + n / 64 % 64, 128 + n % 64]
  else [240 + n / 262144, 128 + n / 4096 % 64, 128 + n / 64 % 64, 128 + n % 64]

/-- `str.encode()` on a whole string. -/
def utf8Encode (s : String) : List ℕ :=
  (s.toList.map utf8Char).flatten

/-! ### MD5 (`hashlib.md5`, RFC 1321)

`SimpleCache._generate_key` calls `hashlib.md5(normalized.encode()).hexdigest()`.
The algorithm is embedded over byte lists (`List ℕ`, each byte `< 256`), with
32-bit words as naturals reduced `% 4294967296`. -/

/-- 32-bit left rotation of a word `x < 2^32`. -/
def rotl32 (x s : ℕ) : ℕ :=
  ((x <<< s) % 4294967296) ||| ((x % 4294967296) >>> (32 - s))

/-- Round function F (rounds 0–15): `(B ∧ C) ∨ (¬B ∧ D)`. -/
def md5F (b c d : ℕ) : ℕ := (b &&& c) ||| ((b ^^^ 4294967295) &&& d)

/-- Round function G (rounds 16–31): `(D ∧ B) ∨ (¬D ∧ C)`. -/
def md5G (b c d : ℕ) : ℕ := (d &&& b) ||| ((d ^^^ 4294967295) &&& c)

/-- Round function H (rounds 32–47): `B ⊕ C ⊕ D`. -/
def md5H (b c d : ℕ) : ℕ := b ^^^ c ^^^ d

/-- Round function I (rounds 48–63): `C ⊕ (B ∨ ¬D)`. -/
def md5I (b c d : ℕ) : ℕ := c ^^^ (b ||| (d ^^^ 4294967295))

/-- Per-round left-rotation amounts. -/
def md5S : List ℕ :=
  [7, 12, 17, 22, 7, 12, 17, 22, 7, 12, 17, 22, 7, 12, 17, 22,
   5, 9, 14, 20, 5, 9, 14, 20, 5, 9, 14, 20, 5, 9, 14, 20,
   4, 11, 16, 23, 4, 11, 16, 23, 4, 11, 16, 23, 4, 11, 16, 23,
   6, 10, 15, 21, 6, 10, 15, 21, 6, 10, 15, 21, 6, 10, 15, 21]

/-- Per-round additive constants `⌊2^32·|sin(i+1)|⌋`. -/
def md5K : List ℕ :=
  [0xd76aa478, 0xe8c7b756, 0x242070db, 0xc1bdceee,
   0xf57c0faf, 0x4787c62a, 0xa8304613, 0xfd469501,
   0x698098d8, 0x8b44f7af, 0xffff5bb1, 0x895cd7be,
   0x6b901122, 0xfd987193, 0xa679438e, 0x49b40821,
   0xf61e2562, 0xc040b340, 0x265e5a51, 0xe9b6c7aa,
   0xd62f105d, 0x02441453, 0xd8a1e681, 0xe7d3fbc8,
   0x21e1cde6, 0xc33707d6, 0xf4d50d87, 0x455a14ed,
   0xa9e3e905, 0xfcefa3f8, 0x676f02d9, 0x8d2a4c8a,
   0xfffa3942, 0x8771f681, 0x6d9d6122, 0xfde5380c,
   0xa4beea44, 0x4bdecfa9, 0xf6bb4b60, 0xbebfbc70,
   0x289b7ec6, 0xeaa127fa, 0xd4ef3085, 0x04881d05,
   0xd9d4d039, 0xe6db99e5, 0x1fa27cf8, 0xc4ac5665,
   0xf4292244, 0x432aff97, 0xab9423a7, 0xfc93a039,
   0x655b59c3, 0x8f0ccc92, 0xffeff47d, 0x85845dd1,
   0x6fa87e4f, 0xfe2ce6e0, 0xa3014314, 0x4e0811a1,
   0xf7537e82, 0xbd3af235, 0x2ad7d2bb, 0xeb86d391]

/-- Little-endian byte decomposition of a natural, `n` bytes wide. -/
def leBytes : ℕ → ℕ → List ℕ
  | 0, _ => []
  | n + 1, x => x % 256 :: leBytes n (x / 256)

/-- A little-endian 32-bit word from a list of bytes. -/
def wordLE (bs : List ℕ) : ℕ :=
  bs.foldr (fun b acc => b + 256 * acc) 0

/-- MD5 padding: append `0x80`, zero bytes to 56 mod 64, then the bit length
as a 64-bit little-endian quantity. -/
def md5Pad (msg : List ℕ) : List ℕ :=
  let len := msg.length
  let zeros := (119 - len % 64) % 64
  msg ++ [128] ++ List.replicate zeros 0 ++ leBytes 8 (len * 8)

/-- Split a padded message into 64-byte chunks. -/
def md5Chunks (msg : List ℕ) : List (List ℕ) :=
  (List.range (msg.length / 64)).map (fun i => (msg.drop (64 * i)).take 64)

/-- One of the 64 MD5 rounds on state `(A, B, C, D)`. -/
def md5Round (M : List ℕ) (st : ℕ × ℕ × ℕ × ℕ) (i : ℕ) : ℕ × ℕ × ℕ × ℕ :=
  let (a, b, c, d) := st
  let f :=
    if i < 16 then md5F b c d
    else if i < 32 then md5G b c d
    else if i < 48 then md5H b c d
    else md5I b c d
  let g :=
    if i < 16 then i
    else if i < 32 then (5 * i + 1) % 16
    else if i < 48 then (3 * i + 5) % 16
    else (7 * i) % 16
  let tmp := (f + a + md5K.getD i 0 + M.getD g 0) % 4294967296
  (d, (b + rotl32 tmp (md5S.getD i 0)) % 4294967296, b, c)

/-- Process one 64-byte chunk and add the result into the running state. -/
def md5ProcessChunk (st : ℕ × ℕ × ℕ × ℕ) (chunk : List ℕ) : ℕ × ℕ × ℕ × ℕ :=
  let M := (List.range 16).map (fun g => wordLE ((chunk.drop (4 * g)).take 4))
  let (a, b, c, d) := (List.range 64).foldl (md5Round M) st
  let (a0, b0, c0, d0) := st
  ((a0 + a) % 4294967296, (b0 + b) % 4294967296,
   (c0 + c) % 4294967296, (d0 + d) % 4294967296)

/-- The MD5 initial state. -/
def md5Init : ℕ × ℕ × ℕ × ℕ :=
  (0x67452301, 0xefcdab89, 0x98badcfe, 0x10325476)

/-- The four final MD5 state words of a message. -/
def md5Words (msg : List ℕ) : ℕ × ℕ × ℕ × ℕ :=
  (md5Chunks (md5Pad msg)).foldl md5ProcessChunk md5Init

/-- The 128-bit MD5 digest as a natural number whose base-256 digits are the
16 digest bytes in output order (each state word little-endian). -/
def md5Digest (msg : List ℕ) : ℕ :=
  let (a, b, c, d) := md5Words msg
  a % 4294967296 + (b % 4294967296) * 4294967296 +
    (c % 4294967296) * 4294967296 ^ 2 + (d % 4294967296) * 4294967296 ^ 3

/-- Lower-case hex character of a nibble. -/
def hexChar (n : ℕ) : Char :=
  "0123456789abcdef".toList.getD n '0'

/-- Two hex characters of a byte. -/
def byteToHex (b : ℕ) : List Char :=
  [hexChar (b / 16), hexChar (b % 16)]

/-- `hexdigest()` rendering of a 128-bit digest value. -/
def md5HexOfDigest (dg : ℕ) : String :=
  String.mk (((List.range 16).map (fun k => byteToHex (dg / 256 ^ k % 256))).flatten)

/-- `hashlib.md5(bytes).hexdigest()`. -/
def md5Hex (msg : List ℕ) : String :=
  md5HexOfDigest (md5Digest msg)

/-! ### The expiring cache (`backend/cache.py`)

`SimpleCache` stores `{'results': ..., 'timestamp': ...}` records in a Python
`dict` keyed by the MD5 hex digest of the normalized topic.  The `dict` is an
association list with unique keys; `time.time()` is an explicit `now : ℚ`
argument. -/

/-- `CACHE_EXPIRATION = 24 * 60 * 60` seconds. -/
def CACHE_EXPIRATION : ℚ := 24 * 60 * 60

/-- One stored record `{'results': results, 'timestamp': timestamp}`. -/
structure CacheEntry (α : Type) where
  results : α
  timestamp : ℚ
deriving DecidableEq, Repr

/-- `SimpleCache.__init__`: the `_cache` dict, as an association list. -/
structure SimpleCache (α : Type) where
  cache : List (String × CacheEntry α)
deriving DecidableEq, Repr

/-- `SimpleCache._generate_key`: MD5 hex digest of the UTF-8 bytes of the
lowercased, stripped topic. -/
def generate_key (topic : String) : String :=
  md5Hex (utf8Encode (pyNormalize topic))

/-- Dictionary lookup `self._cache[key]` (with `key in self._cache` test). -/
def SimpleCache.lookup {α : Type} (c : SimpleCache α) (key : String) :
    Option (CacheEntry α) :=
  (c.cache.find? (fun p => p.1 == key)).map Prod.snd

/-- Number of entries whose key is `key` (0 or 1 for a genuine dict). -/
def SimpleCache.keyCount {α : Type} (c : SimpleCache α) (key : String) : ℕ :=
  c.cache.countP (fun p => p.1 == key)

/-- `SimpleCache.get`: return the cached results for a topic if present and
not expired; delete the entry and return `none` if it has expired.  Returns
the value together with the cache state after the call. -/
def SimpleCache.get {α : Type} (c : SimpleCache α) (topic : String) (now : ℚ) :
    Option α × SimpleCache α :=
  let key := generate_key topic
  match c.cache.find? (fun p => p.1 == key) with
  | none => (none, c)
  | some (_, entry) =>
    if now - entry.timestamp > CACHE_EXPIRATION then
      (none, ⟨c.cache.filter (fun p => !(p.1 == key))⟩)
    else
      (some entry.results, c)

/-- `SimpleCache.set`: store results under the generated key with the current
timestamp (dict assignment: overwrite any entry with the same key). -/
def SimpleCache.set {α : Type} (c : SimpleCache α) (topic : String) (results : α)
    (now : ℚ) : SimpleCache α :=
  let key := generate_key topic
  ⟨(key, ⟨results, now⟩) :: c.cache.filter (fun p => !(p.1 == key))⟩

/-- `SimpleCache.clear_expired`: remove every expired entry, returning the
number removed together with the cache state after the call. -/
def SimpleCache.clear_expired {α : Type} (c : SimpleCache α) (now : ℚ) :
    ℕ × SimpleCache α :=
  let expired := c.cache.filter (fun p => decide (now - p.2.timestamp > CACHE_EXPIRATION))
  (expired.length, ⟨c.cache.filter (fun p => !decide (now - p.2.timestamp > CACHE_EXPIRATION))⟩)

/-- `SimpleCache.clear_all`. -/
def SimpleCache.clear_all {α : Type} (_c : SimpleCache α) : SimpleCache α :=
  ⟨[]⟩

/-- `SimpleCache.size`: `len(self._cache)`. -/
def SimpleCache.size {α : Type} (c : SimpleCache α) : ℕ :=
  c.cache.length

/-! ### The rate limiter (`backend/utils.py`, class `RateLimiter`)

`wait()` reads the clock, compares the elapsed time against `min_interval`,
sleeps for the remainder if needed, and records a fresh clock reading in
`last_call_time`.  In the idealized clock, a call entered at time `t` finishes
at `t` plus the slept duration, and the fresh `time.time()` read on line 47 of
`utils.py` is that finish time. -/

/-- The mutable state of a `RateLimiter`. -/
structure RateLimiter where
  min_interval : ℚ
  last_call_time : ℚ
deriving DecidableEq, Repr

/-- `RateLimiter.__init__(min_interval)`: `last_call_time` starts at `0`. -/
def RateLimiter.init (min_interval : ℚ) : RateLimiter :=
  ⟨min_interval, 0⟩

/-- `RateLimiter.wait`, entered when the clock reads `t`: returns the time at
which the call returns together with the state after the call. -/
def RateLimiter.wait (rl : RateLimiter) (t : ℚ) : ℚ × RateLimiter :=
  let time_since_last := t - rl.last_call_time
  let finish :=
    if time_since_last < rl.min_interval then
      t + (rl.min_interval - time_since_last)
    else t
  (finish, { rl with last_call_time := finish })

/-- A sequence of `wait()` calls entered at the given clock times: the list of
return times and the final state. -/
def waitRun (rl : RateLimiter) : List ℚ → List ℚ × RateLimiter
  | [] => ([], rl)
  | t :: ts =>
    let (c, rl1) := rl.wait t
    let (cs, rl2) := waitRun rl1 ts
    (c :: cs, rl2)

/-- The call times are sequential: each call is entered no earlier than the
return of the call before it. -/
def seqCalls (rl : RateLimiter) : List ℚ → Bool
  | [] => true
  | t :: ts =>
    let (c, rl1) := rl.wait t
    (match ts with
     | [] => true
     | t2 :: _ => decide (c ≤ t2)) && seqCalls rl1 ts

/-! ### Retry with exponential backoff (`backend/utils.py`, `retry_with_backoff`)

The wrapped function is a fallible operation `op : ℕ → Except ε α` giving the
outcome of its `i`-th invocation (0-based).  `isinstance(e, exceptions)` is
`retryable e = true`.  The result records the value returned or the exception
finally raised, the number of invocations of `op`, and the list of delays
slept, in order. -/

/-- The observable outcome of one `retry_with_backoff` execution. -/
structure RetryResult (ε α : Type) where
  result : Except ε α
  attempts : ℕ
  delays : List ℚ

/-- The `for attempt in range(max_retries + 1)` loop of `retry_with_backoff`,
at loop index `attempt` with `remaining = max_retries - attempt` iterations
after this one and the current `delay`.  A non-retryable exception escapes the
`except` clause at once; an exhausted loop re-raises the last exception. -/
def retryLoop {ε α : Type} (retryable : ε → Bool) (op : ℕ → Except ε α)
    (backoff_factor : ℚ) : ℕ → ℕ → ℚ → RetryResult ε α
  | attempt, remaining, delay =>
    match op attempt with
    | Except.ok a => ⟨Except.ok a, 1, []⟩
    | Except.error e =>
      if retryable e then
        match remaining with
        | 0 => ⟨Except.error e, 1, []⟩
        | r + 1 =>
          let rest := retryLoop retryable op backoff_factor (attempt + 1) r
            (delay * backoff_factor)
          ⟨rest.result, rest.attempts + 1, delay :: rest.delays⟩
      else ⟨Except.error e, 1, []⟩

/-- `retry_with_backoff(max_retries, base_delay, backoff_factor, exceptions)`
applied to an operation. -/
def retry_with_backoff {ε α : Type} (retryable : ε → Bool) (max_retries : ℕ)
    (base_delay backoff_factor : ℚ) (op : ℕ → Except ε α) : RetryResult ε α :=
  retryLoop retryable op backoff_factor 0 max_retries base_delay

/-! ### Interleaved executions of `RateLimiter.wait`

`RateLimiter.wait` takes no lock, so between its read of `last_call_time`
(lines 39–40 of `utils.py`) and its write (line 47) another thread may run.
Each thread executing `wait()` is at one of three program points; a scheduler
step runs one enabled thread for one atomic region. -/

/-- Program points of a thread inside `wait()`: before lines 39–40, between
line 40 and line 47, and returned. -/
inductive WaitPC
  | toRead
  | toFinish
  | halted
deriving DecidableEq, Repr

/-- One thread executing `wait()`: its program point, its local
`time_since_last`, and its return time once halted. -/
structure WaitThread where
  pc : WaitPC
  time_since_last : ℚ
  finish : ℚ
deriving DecidableEq, Repr

/-- The shared system: the limiter fields, the global clock, and the threads
currently executing `wait()`. -/
structure LimiterSys where
  min_interval : ℚ
  clock : ℚ
  last_call_time : ℚ
  threads : List WaitThread
deriving DecidableEq, Repr

/-- Run one atomic region of one thread: `toRead` executes lines 39–40
(read the clock and `last_call_time`); `toFinish` executes lines 42–47
(sleep if needed, then store a fresh clock reading in `last_call_time`). -/
def threadStep (m clock last : ℚ) (th : WaitThread) : WaitThread × ℚ × ℚ :=
  match th.pc with
  | WaitPC.toRead =>
    ({ th with pc := WaitPC.toFinish, time_since_last := clock - last }, clock, last)
  | WaitPC.toFinish =>
    let clock2 := if th.time_since_last < m then clock + (m - th.time_since_last) else clock
    ({ th with pc := WaitPC.halted, finish := clock2 }, clock2, clock2)
  | WaitPC.halted => (th, clock, last)

/-- Scheduler step: run one atomic region of thread `i`. -/
def sysStep (sys : LimiterSys) (i : ℕ) : LimiterSys :=
  match sys.threads.get? i with
  | none => sys
  | some th =>
    let (th2, clock2, last2) := threadStep sys.min_interval sys.clock sys.last_call_time th
    { sys with clock := clock2, last_call_time := last2, threads := sys.threads.set i th2 }

/-- Run a schedule (a list of thread indices). -/
def runSchedule (sys : LimiterSys) (sched : List ℕ) : LimiterSys :=
  sched.foldl sysStep sys

/-- Two threads both entering `wait()` on the freshly constructed shared
limiter (`min_interval = 1`) when the clock reads `100`. -/
def raceStart : LimiterSys :=
  { min_interval := 1, clock := 100, last_call_time := 0,
    threads := [⟨WaitPC.toRead, 0, 0⟩, ⟨WaitPC.toRead, 0, 0⟩] }

/-- The family of topics `"a"`, `"aa"`, `"aaa"`, …: pairwise distinct strings
that are fixed points of the key normalization.  Used to exhibit that MD5 maps
infinitely many distinct normalized topics into finitely many keys. -/
def aStr (n : ℕ) : String :=
  String.mk (List.replicate (n + 1) 'a')

/-! ### Lemmas about `retryLoop` -/

theorem retryLoop_eq_ok {ε α : Type} (retryable : ε → Bool) (op : ℕ → Except ε α)
    (factor : ℚ) (attempt remaining : ℕ) (delay : ℚ) (a : α)
    (h : op attempt = Except.ok a) :
    retryLoop retryable op factor attempt remaining delay = ⟨Except.ok a, 1, []⟩ := by
  unfold retryLoop
  rw [h]

theorem retryLoop_eq_nonretryable {ε α : Type} (retryable : ε → Bool)
    (op : ℕ → Except ε α) (factor : ℚ) (attempt remaining : ℕ) (delay : ℚ) (e : ε)
    (h : op attempt = Except.error e) (hr : retryable e = false) :
    retryLoop retryable op factor attempt remaining delay = ⟨Except.error e, 1, []⟩ := by
  unfold retryLoop
  rw [h]
  simp [hr]

theorem retryLoop_eq_zero {ε α : Type} (retryable : ε → Bool) (op : ℕ → Except ε α)
    (factor : ℚ) (attempt : ℕ) (delay : ℚ) (e : ε)
    (h : op attempt = Except.error e) (hr : retryable e = true) :
    retryLoop retryable op factor attempt 0 delay = ⟨Except.error e, 1, []⟩ := by
  unfold retryLoop
  rw [h]
  simp [hr]

theorem retryLoop_eq_succ {ε α : Type} (retryable : ε → Bool) (op : ℕ → Except ε α)
    (factor : ℚ) (attempt r : ℕ) (delay : ℚ) (e : ε)
    (h : op attempt = Except.error e) (hr : retryable e = true) :
    retryLoop retryable op factor attempt (r + 1) delay =
      ⟨(retryLoop retryable op factor (attempt + 1) r (delay * factor)).result,
       (retryLoop retryable op factor (attempt + 1) r (delay * factor)).attempts + 1,
       delay :: (retryLoop retryable op factor (attempt + 1) r (delay * factor)).delays⟩ := by
  conv_lhs => unfold retryLoop
  rw [h]
  simp [hr]

/-- The attempt count of the loop with `remaining` retries left is at most
`remaining + 1`. -/
theorem retryLoop_attempts_le {ε α : Type} (retryable : ε → Bool)
    (op : ℕ → Except ε α) (factor : ℚ) :
    ∀ (remaining attempt : ℕ) (delay : ℚ),
      (retryLoop retryable op factor attempt remaining delay).attempts ≤ remaining + 1 := by
  intro remaining
  induction remaining with
  | zero =>
    intro attempt delay
    cases h : op attempt with
    | ok a => rw [retryLoop_eq_ok retryable op factor attempt 0 delay a h]
    | error e =>
      cases hr : retryable e with
      | false => rw [retryLoop_eq_nonretryable retryable op factor attempt 0 delay e h hr]
      | true => rw [retryLoop_eq_zero retryable op factor attempt delay e h hr]
  | succ r ih =>
    intro attempt delay
    cases h : op attempt with
    | ok a =>
      rw [retryLoop_eq_ok retryable op factor attempt (r + 1) delay a h]
      simp
    | error e =>
      cases hr : retryable e with
      | false =>
        rw [retryLoop_eq_nonretryable retryable op factor attempt (r + 1) delay e h hr]
        simp
      | true =>
        rw [retryLoop_eq_succ retryable op factor attempt r delay e h hr]
        have := ih (attempt + 1) (delay * factor)
        simp only [RetryResult.mk.injEq]
        omega

/-- Cons of the head delay onto the geometrically scaled tail is the
geometric delay list, one step longer. -/
theorem geom_delays_cons (d f : ℚ) (m : ℕ) :
    d :: (List.range m).map (fun k => d * f * f ^ k)
      = (List.range (m + 1)).map (fun k => d * f ^ k) := by
  rw [List.range_succ_eq_map, List.map_cons, List.map_map]
  congr 1
  · simp
  · congr 1
    funext k
    simp [pow_succ]
    ring

/-- When every invocation fails with a retryable error, the loop runs all its
attempts, returns the error of the final attempt, and sleeps the geometric
delay sequence. -/
theorem retryLoop_allfail {ε α : Type} (retryable : ε → Bool)
    (op : ℕ → Except ε α) (factor : ℚ)
    (hfail : ∀ i, ∃ e, op i = Except.error e ∧ retryable e = true) :
    ∀ (remaining attempt : ℕ) (delay : ℚ),
      (retryLoop retryable op factor attempt remaining delay).result = op (attempt + remaining)
      ∧ (retryLoop retryable op factor attempt remaining delay).attempts = remaining + 1
      ∧ (retryLoop retryable op factor attempt remaining delay).delays
          = (List.range remaining).map (fun k => delay * factor ^ k) := by
  intro remaining
  induction remaining with
  | zero =>
    intro attempt delay
    obtain ⟨e, he, hr⟩ := hfail attempt
    rw [retryLoop_eq_zero retryable op factor attempt delay e he hr]
    exact ⟨by rw [Nat.add_zero, he], rfl, by simp⟩
  | succ r ih =>
    intro attempt delay
    obtain ⟨e, he, hr⟩ := hfail attempt
    rw [retryLoop_eq_succ retryable op factor attempt r delay e he hr]
    obtain ⟨ihres, ihatt, ihdel⟩ := ih (attempt + 1) (delay * factor)
    refine ⟨?_, ?_, ?_⟩
    · rw [ihres]
      congr 1
      omega
    · rw [ihatt]
    · rw [ihdel, geom_delays_cons]

/-- For an arbitrary operation the delays slept are a geometric prefix:
`delay, delay·factor, …` of some length at most `remaining`. -/
theorem retryLoop_delays_shape {ε α : Type} (retryable : ε → Bool)
    (op : ℕ → Except ε α) (factor : ℚ) :
    ∀ (remaining attempt : ℕ) (delay : ℚ),
      ∃ m, m ≤ remaining ∧
        (retryLoop retryable op factor attempt remaining delay).delays
          = (List.range m).map (fun k => delay * factor ^ k) := by
  intro remaining
  induction remaining with
  | zero =>
    intro attempt delay
    refine ⟨0, Nat.le_refl 0, ?_⟩
    cases h : op attempt with
    | ok a => rw [retryLoop_eq_ok retryable op factor attempt 0 delay a h]; simp
    | error e =>
      cases hr : retryable e with
      | false =>
        rw [retryLoop_eq_nonretryable retryable op factor attempt 0 delay e h hr]
        simp
      | true => rw [retryLoop_eq_zero retryable op factor attempt delay e h hr]; simp
  | succ r ih =>
    intro attempt delay
    cases h : op attempt with
    | ok a =>
      refine ⟨0, Nat.zero_le _, ?_⟩
      rw [retryLoop_eq_ok retryable op factor attempt (r + 1) delay a h]
      simp
    | error e =>
      cases hr : retryable e with
      | false =>
        refine ⟨0, Nat.zero_le _, ?_⟩
        rw [retryLoop_eq_nonretryable retryable op factor attempt (r + 1) delay e h hr]
        simp
      | true =>
        obtain ⟨m, hm, hdel⟩ := ih (attempt + 1) (delay * factor)
        refine ⟨m + 1, by omega, ?_⟩
        rw [retryLoop_eq_succ retryable op factor attempt r delay e h hr]
        simp only []
        rw [hdel, geom_delays_cons]

/-- With zero retries remaining the loop makes exactly one attempt and sleeps
no delay, whatever the operation does. -/
theorem retryLoop_zero_attempts {ε α : Type} (retryable : ε → Bool)
    (op : ℕ → Except ε α) (factor : ℚ) (attempt : ℕ) (delay : ℚ) :
    (retryLoop retryable op factor attempt 0 delay).attempts = 1
    ∧ (retryLoop retryable op factor attempt 0 delay).delays = [] := by
  cases h : op attempt with
  | ok a => rw [retryLoop_eq_ok retryable op factor attempt 0 delay a h]; exact ⟨rfl, rfl⟩
  | error e =>
    cases hr : retryable e with
    | false =>
      rw [retryLoop_eq_nonretryable retryable op factor attempt 0 delay e h hr]
      exact ⟨rfl, rfl⟩
    | true =>
      rw [retryLoop_eq_zero retryable op factor attempt delay e h hr]
      exact ⟨rfl, rfl⟩

/-- Sum of the geometric delay list. -/
theorem geom_delays_sum (d f : ℚ) (hf : f ≠ 1) :
    ∀ n : ℕ, ((List.range n).map (fun k => d * f ^ k)).sum = d * (f ^ n - 1) / (f - 1) := by
  have hf1 : f - 1 ≠ 0 := sub_ne_zero.mpr hf
  intro n
  induction n with
  | zero => simp
  | succ n ih =>
    rw [List.range_succ, List.map_append, List.sum_append, ih]
    simp only [List.map_cons, List.map_nil, List.sum_cons, List.sum_nil]
    field_simp
    ring

/-! ### Claims C1–C4: `retry_with_backoff` -/

/-- Claim C1: for every operation and every retry policy with
`max_retries = n`, `retry_with_backoff` invokes the operation at most `n + 1`
times; if the operation raises a retryable failure on every invocation,
exactly `n + 1` attempts occur and then the failure is propagated; in
particular `max_retries = 0` means exactly one attempt and no retry. -/
theorem retry_attempts_bounded_and_exhaustive {ε α : Type} (retryable : ε → Bool)
    (max_retries : ℕ) (base_delay backoff_factor : ℚ) (op : ℕ → Except ε α)
    (hfail : ∀ i, ∃ e, op i = Except.error e ∧ retryable e = true) :
    (∀ op2 : ℕ → Except ε α,
       (retry_with_backoff retryable max_retries base_delay backoff_factor op2).attempts
         ≤ max_retries + 1)
    ∧ (retry_with_backoff retryable max_retries base_delay backoff_factor op).attempts
        = max_retries + 1
    ∧ (retry_with_backoff retryable max_retries base_delay backoff_factor op).result
        = op max_retries
    ∧ (∀ op2 : ℕ → Except ε α,
        (retry_with_backoff retryable 0 base_delay backoff_factor op2).attempts = 1
        ∧ (retry_with_backoff retryable 0 base_delay backoff_factor op2).delays = []) := by
  refine ⟨?_, ?_, ?_, ?_⟩
  · intro op2
    exact retryLoop_attempts_le retryable op2 backoff_factor max_retries 0 base_delay
  · exact (retryLoop_allfail retryable op backoff_factor hfail max_retries 0 base_delay).2.1
  · have h := (retryLoop_allfail retryable op backoff_factor hfail max_retries 0 base_delay).1
    rwa [Nat.zero_add] at h
  · intro op2
    exact retryLoop_zero_attempts retryable op2 backoff_factor 0 base_delay

/-- Witness for C1 at the spec's own example policy `max_retries = 3`,
`base_delay = 2`, `backoff_factor = 2` and an operation that always raises a
retryable failure. -/
theorem retry_attempts_bounded_and_exhaustive_witness :
    (∀ i : ℕ, ∃ e : Unit, (fun _ : ℕ => (Except.error () : Except Unit Unit)) i
        = Except.error e ∧ (fun _ : Unit => true) e = true)
    ∧ ((∀ op2 : ℕ → Except Unit Unit,
         (retry_with_backoff (fun _ => true) 3 2 2 op2).attempts ≤ 3 + 1)
       ∧ (retry_with_backoff (fun _ => true) 3 2 2
            (fun _ : ℕ => (Except.error () : Except Unit Unit))).attempts = 3 + 1
       ∧ (retry_with_backoff (fun _ => true) 3 2 2
            (fun _ : ℕ => (Except.error () : Except Unit Unit))).result
           = (fun _ : ℕ => (Except.error () : Except Unit Unit)) 3
       ∧ (∀ op2 : ℕ → Except Unit Unit,
           (retry_with_backoff (fun _ => true) 0 2 2 op2).attempts = 1
           ∧ (retry_with_backoff (fun _ => true) 0 2 2 op2).delays = [])) :=
  ⟨fun _ => ⟨(), rfl, rfl⟩,
   retry_attempts_bounded_and_exhaustive (fun _ => true) 3 2 2
     (fun _ => Except.error ()) (fun _ => ⟨(), rfl, rfl⟩)⟩

/-- Claim C2: with `base_delay = d > 0` and `backoff_factor = f ≥ 1`, the
delay slept before retry `k` is `d * f^(k-1)`: under constant retryable
failure the delay list is exactly `d, d·f, d·f², …`; for any operation it is
a prefix of that sequence; and for `f > 1` the worst-case total delay is the
geometric sum `d·(f^max_retries − 1)/(f − 1)`. -/
theorem retry_delays_geometric {ε α : Type} (retryable : ε → Bool)
    (max_retries : ℕ) (base_delay backoff_factor : ℚ)
    (_hd : 0 < base_delay) (_hf : 1 ≤ backoff_factor) (op : ℕ → Except ε α)
    (hfail : ∀ i, ∃ e, op i = Except.error e ∧ retryable e = true) :
    (retry_with_backoff retryable max_retries base_delay backoff_factor op).delays
      = (List.range max_retries).map (fun k => base_delay * backoff_factor ^ k)
    ∧ (∀ op2 : ℕ → Except ε α, ∃ m, m ≤ max_retries ∧
        (retry_with_backoff retryable max_retries base_delay backoff_factor op2).delays
          = (List.range m).map (fun k => base_delay * backoff_factor ^ k))
    ∧ (1 < backoff_factor →
        ((retry_with_backoff retryable max_retries base_delay backoff_factor op).delays).sum
          = base_delay * (backoff_factor ^ max_retries - 1) / (backoff_factor - 1)) := by
  refine ⟨?_, ?_, ?_⟩
  · exact (retryLoop_allfail retryable op backoff_factor hfail max_retries 0 base_delay).2.2
  · intro op2
    exact retryLoop_delays_shape retryable op2 backoff_factor max_retries 0 base_delay
  · intro h1
    unfold retry_with_backoff
    rw [(retryLoop_allfail retryable op backoff_factor hfail max_retries 0 base_delay).2.2]
    exact geom_delays_sum base_delay backoff_factor (ne_of_gt h1) max_retries

/-- Witness for C2 at `max_retries = 3`, `base_delay = 2`,
`backoff_factor = 2`: delays `2, 4, 8` and total `14`. -/
theorem retry_delays_geometric_witness :
    ((0 : ℚ) < 2 ∧ (1 : ℚ) ≤ 2
     ∧ (∀ i : ℕ, ∃ e : Unit, (fun _ : ℕ => (Except.error () : Except Unit Unit)) i
          = Except.error e ∧ (fun _ : Unit => true) e = true))
    ∧ ((retry_with_backoff (fun _ => true) 3 2 2
          (fun _ : ℕ => (Except.error () : Except Unit Unit))).delays
         = (List.range 3).map (fun k => (2 : ℚ) * 2 ^ k)
       ∧ (∀ op2 : ℕ → Except Unit Unit, ∃ m, m ≤ 3 ∧
           (retry_with_backoff (fun _ => true) 3 2 2 op2).delays
             = (List.range m).map (fun k => (2 : ℚ) * 2 ^ k))
       ∧ ((1 : ℚ) < 2 →
           ((retry_with_backoff (fun _ => true) 3 2 2
               (fun _ : ℕ => (Except.error () : Except Unit Unit))).delays).sum
             = 2 * ((2 : ℚ) ^ 3 - 1) / (2 - 1))) :=
  ⟨⟨by norm_num, by norm_num, fun _ => ⟨(), rfl, rfl⟩⟩,
   retry_delays_geometric (fun _ => true) 3 2 2 (by norm_num) (by norm_num)
     (fun _ => Except.error ()) (fun _ => ⟨(), rfl, rfl⟩)⟩

/-- Claim C3: a failure whose kind is not retryable is propagated at once:
one attempt, no delay, no further attempts, for every `max_retries`. -/
theorem retry_nonretryable_fails_fast {ε α : Type} (retryable : ε → Bool)
    (max_retries : ℕ) (base_delay backoff_factor : ℚ) (op : ℕ → Except ε α) (e : ε)
    (h0 : op 0 = Except.error e) (hnr : retryable e = false) :
    (retry_with_backoff retryable max_retries base_delay backoff_factor op).result
      = Except.error e
    ∧ (retry_with_backoff retryable max_retries base_delay backoff_factor op).attempts = 1
    ∧ (retry_with_backoff retryable max_retries base_delay backoff_factor op).delays = [] := by
  unfold retry_with_backoff
  rw [retryLoop_eq_nonretryable retryable op backoff_factor 0 max_retries base_delay e h0 hnr]
  exact ⟨rfl, rfl, rfl⟩

/-- Witness for C3: a non-retryable failure (`retryable = fun b => b`, error
value `false`) under policy `max_retries = 3`. -/
theorem retry_nonretryable_fails_fast_witness :
    ((fun _ : ℕ => (Except.error false : Except Bool Unit)) 0 = Except.error false
     ∧ (fun b : Bool => b) false = false)
    ∧ ((retry_with_backoff (fun b : Bool => b) 3 2 2
          (fun _ : ℕ => (Except.error false : Except Bool Unit))).result = Except.error false
       ∧ (retry_with_backoff (fun b : Bool => b) 3 2 2
            (fun _ : ℕ => (Except.error false : Except Bool Unit))).attempts = 1
       ∧ (retry_with_backoff (fun b : Bool => b) 3 2 2
            (fun _ : ℕ => (Except.error false : Except Bool Unit))).delays = []) :=
  ⟨⟨rfl, rfl⟩,
   retry_nonretryable_fails_fast (fun b => b) 3 2 2 (fun _ => Except.error false)
     false rfl rfl⟩

/-- Claim C4: when every attempt fails with a retryable failure,
`retry_with_backoff` propagates the very failure raised by the final attempt,
unchanged, and never returns a success value. -/
theorem retry_propagates_final_failure {ε α : Type} (retryable : ε → Bool)
    (max_retries : ℕ) (base_delay backoff_factor : ℚ) (op : ℕ → Except ε α)
    (hfail : ∀ i, ∃ e, op i = Except.error e ∧ retryable e = true) :
    ∃ e : ε, op max_retries = Except.error e
      ∧ (retry_with_backoff retryable max_retries base_delay backoff_factor op).result
          = Except.error e
      ∧ ∀ a : α, (retry_with_backoff retryable max_retries base_delay backoff_factor op).result
          ≠ Except.ok a := by
  obtain ⟨e, he, _⟩ := hfail max_retries
  have h := (retryLoop_allfail retryable op backoff_factor hfail max_retries 0 base_delay).1
  rw [Nat.zero_add, he] at h
  have h2 : (retry_with_backoff retryable max_retries base_delay backoff_factor op).result
      = Except.error e := h
  refine ⟨e, he, h2, fun a hcontra => ?_⟩
  rw [h2] at hcontra
  exact Except.noConfusion hcontra

/-- Witness for C4: the always-failing retryable operation under the spec's
example policy; the propagated failure is the final attempt's. -/
theorem retry_propagates_final_failure_witness :
    (∀ i : ℕ, ∃ e : ℕ, (fun i : ℕ => (Except.error i : Except ℕ Unit)) i
        = Except.error e ∧ (fun _ : ℕ => true) e = true)
    ∧ (∃ e : ℕ, (fun i : ℕ => (Except.error i : Except ℕ Unit)) 3 = Except.error e
       ∧ (retry_with_backoff (fun _ : ℕ => true) 3 2 2
            (fun i : ℕ => (Except.error i : Except ℕ Unit))).result = Except.error e
       ∧ ∀ a : Unit, (retry_with_backoff (fun _ : ℕ => true) 3 2 2
            (fun i : ℕ => (Except.error i : Except ℕ Unit))).result ≠ Except.ok a) :=
  ⟨fun i => ⟨i, rfl, rfl⟩,
   retry_propagates_final_failure (fun _ => true) 3 2 2
     (fun i => Except.error i) (fun i => ⟨i, rfl, rfl⟩)⟩

/-! ### Lemmas about `RateLimiter.wait` -/

/-- After `wait()` returns, `last_call_time` holds the return time: line 47 of
`utils.py` stores a fresh clock reading taken after any sleep. -/
theorem wait_last_call_time (rl : RateLimiter) (t : ℚ) :
    ((rl.wait t).2).last_call_time = (rl.wait t).1 := rfl

/-- `wait()` does not change `min_interval`. -/
theorem wait_min_interval (rl : RateLimiter) (t : ℚ) :
    ((rl.wait t).2).min_interval = rl.min_interval := rfl

/-- Whatever the entry time, `wait()` returns no earlier than
`last_call_time + min_interval`. -/
theorem wait_return_ge (rl : RateLimiter) (t : ℚ) :
    rl.last_call_time + rl.min_interval ≤ (rl.wait t).1 := by
  unfold RateLimiter.wait
  by_cases h : t - rl.last_call_time < rl.min_interval
  · simp only [h, if_true]
    linarith
  · simp only [h, if_false]
    linarith [not_lt.mp h]

/-- Consecutive `wait()` return times in any run are at least `min_interval`
apart. -/
theorem waitRun_chain (ts : List ℚ) :
    ∀ rl : RateLimiter,
      List.Chain' (fun a b => a + rl.min_interval ≤ b) (waitRun rl ts).1 := by
  induction ts with
  | nil => intro rl; simp [waitRun]
  | cons t ts ih =>
    intro rl
    have hrun : (waitRun rl (t :: ts)).1 = (rl.wait t).1 :: (waitRun (rl.wait t).2 ts).1 := rfl
    rw [hrun, List.chain'_cons']
    constructor
    · intro b hb
      cases ts with
      | nil => simp [waitRun] at hb
      | cons t2 ts2 =>
        have hb2 : b = ((rl.wait t).2.wait t2).1 := by
          have : (waitRun (rl.wait t).2 (t2 :: ts2)).1
              = ((rl.wait t).2.wait t2).1 :: (waitRun ((rl.wait t).2.wait t2).2 ts2).1 := rfl
          rw [this] at hb
          simp at hb
          exact hb.symm
        rw [hb2, ← wait_last_call_time rl t]
        exact wait_return_ge (rl.wait t).2 t2
    · exact ih (rl.wait t).2

/-! ### Claims C5, C10, C6: `RateLimiter` -/

/-- Claim C5: in any sequential run of `wait()` calls on one limiter, each
call after the first returns no earlier than `min_interval` seconds after the
previous call returned. -/
theorem rateLimiter_sequential_spacing (rl : RateLimiter) (ts : List ℚ)
    (_hseq : seqCalls rl ts = true) :
    List.Chain' (fun a b => a + rl.min_interval ≤ b) (waitRun rl ts).1 :=
  waitRun_chain ts rl

/-- Witness for C5: three sequential calls on a fresh limiter with
`min_interval = 1`, entered at times `5, 5, 7`; the returns `5, 6, 7`
are at least one second apart. -/
theorem rateLimiter_sequential_spacing_witness :
    seqCalls (RateLimiter.init 1) [5, 5, 7] = true
    ∧ List.Chain' (fun a b => a + (RateLimiter.init 1).min_interval ≤ b)
        (waitRun (RateLimiter.init 1) [5, 5, 7]).1 :=
  ⟨by norm_num [seqCalls, RateLimiter.wait, RateLimiter.init],
   rateLimiter_sequential_spacing (RateLimiter.init 1) [5, 5, 7]
     (by norm_num [seqCalls, RateLimiter.wait, RateLimiter.init])⟩

/-- Claim C10: a fresh `RateLimiter` has `last_call_time = 0`, so the first
`wait()` sleeps only when the clock reading `t` is below `min_interval`
(returning at `m`), and for `t ≥ min_interval` it returns immediately at
`t` with no delay. -/
theorem rateLimiter_init_first_wait (m t : ℚ) :
    (RateLimiter.init m).last_call_time = 0
    ∧ (m ≤ t → ((RateLimiter.init m).wait t).1 = t)
    ∧ (t < m → ((RateLimiter.init m).wait t).1 = t + (m - t)) := by
  refine ⟨rfl, ?_, ?_⟩
  · intro h
    unfold RateLimiter.wait RateLimiter.init
    simp only []
    rw [if_neg]
    simp only [sub_zero]
    linarith
  · intro h
    unfold RateLimiter.wait RateLimiter.init
    simp only []
    rw [if_pos]
    · simp
    · simpa using h

/-- Claim C6 (refuted): `wait()` takes no lock, so its read of
`last_call_time` and its later write are not atomic.  With two threads on the
shared limiter (`min_interval = 1`, clock at `100`, `last_call_time = 0`),
the schedule read/read/write/write lets both calls return at time `100`:
two completions zero seconds apart, exceeding rate `1 / min_interval`. -/
theorem rateLimiter_race_two_simultaneous_completions :
    (runSchedule raceStart [0, 1, 0, 1]).threads.map WaitThread.pc
        = [WaitPC.halted, WaitPC.halted]
    ∧ (runSchedule raceStart [0, 1, 0, 1]).threads.map WaitThread.finish = [100, 100]
    ∧ (0 : ℚ) < raceStart.min_interval := by
  refine ⟨?_, ?_, ?_⟩ <;>
    norm_num [runSchedule, raceStart, sysStep, threadStep, List.foldl]

/-! ### Lemmas about `SimpleCache.get` -/

theorem get_of_find_none {α : Type} (c : SimpleCache α) (topic : String) (now : ℚ)
    (hf : c.cache.find? (fun p => p.1 == generate_key topic) = none) :
    c.get topic now = (none, c) := by
  simp only [SimpleCache.get, hf]

theorem get_of_find_expired {α : Type} (c : SimpleCache α) (topic : String) (now : ℚ)
    (k0 : String) (e0 : CacheEntry α)
    (hf : c.cache.find? (fun p => p.1 == generate_key topic) = some (k0, e0))
    (hexp : now - e0.timestamp > CACHE_EXPIRATION) :
    c.get topic now = (none, ⟨c.cache.filter (fun p => !(p.1 == generate_key topic))⟩) := by
  simp only [SimpleCache.get, hf]
  rw [if_pos hexp]

theorem get_of_find_fresh {α : Type} (c : SimpleCache α) (topic : String) (now : ℚ)
    (k0 : String) (e0 : CacheEntry α)
    (hf : c.cache.find? (fun p => p.1 == generate_key topic) = some (k0, e0))
    (hexp : ¬(now - e0.timestamp > CACHE_EXPIRATION)) :
    c.get topic now = (some e0.results, c) := by
  simp only [SimpleCache.get, hf]
  rw [if_neg hexp]

/-! ### Claims C7 and C9: cache visibility and sweeping -/

/-- Claim C7: `get` returns the stored value iff an entry for the normalized
topic exists and is at most `CACHE_EXPIRATION` old; an existing but expired
entry makes `get` return absent and delete the entry, so it is no longer
found and no longer counted by `size()`. -/
theorem cache_get_ttl_visibility {α : Type} (c : SimpleCache α) (topic : String) (now : ℚ) :
    (∀ v : α, (c.get topic now).1 = some v ↔
        ∃ e, c.lookup (generate_key topic) = some e
          ∧ now - e.timestamp ≤ CACHE_EXPIRATION ∧ e.results = v)
    ∧ (∀ e, c.lookup (generate_key topic) = some e →
        CACHE_EXPIRATION < now - e.timestamp →
          (c.get topic now).1 = none
          ∧ ((c.get topic now).2).lookup (generate_key topic) = none
          ∧ ((c.get topic now).2).size + c.keyCount (generate_key topic) = c.size
          ∧ 1 ≤ c.keyCount (generate_key topic)) := by
  constructor
  · intro v
    cases hf : c.cache.find? (fun p => p.1 == generate_key topic) with
    | none =>
      rw [get_of_find_none c topic now hf]
      simp [SimpleCache.lookup, hf]
    | some pe =>
      obtain ⟨k0, e0⟩ := pe
      by_cases hexp : now - e0.timestamp > CACHE_EXPIRATION
      · rw [get_of_find_expired c topic now k0 e0 hf hexp]
        simp only [SimpleCache.lookup, hf, Option.map_some']
        constructor
        · intro h
          exact absurd h (by simp)
        · rintro ⟨e, he, hle, -⟩
          rw [Option.some_inj] at he
          rw [← he] at hle
          linarith
      · rw [get_of_find_fresh c topic now k0 e0 hf hexp]
        simp only [SimpleCache.lookup, hf, Option.map_some']
        constructor
        · intro h
          rw [Option.some_inj] at h
          exact ⟨e0, rfl, not_lt.mp hexp, h⟩
        · rintro ⟨e, he, -, hres⟩
          rw [Option.some_inj] at he
          rw [← he] at hres
          rw [hres]
  · intro e he hexp
    cases hf : c.cache.find? (fun p => p.1 == generate_key topic) with
    | none =>
      simp only [SimpleCache.lookup, hf, Option.map_none'] at he
      exact Option.noConfusion he
    | some pe =>
      obtain ⟨k0, e0⟩ := pe
      have he0 : e0 = e := by
        simp only [SimpleCache.lookup, hf, Option.map_some', Option.some_inj] at he
        exact he
      subst he0
      rw [get_of_find_expired c topic now k0 e0 hf hexp]
      refine ⟨rfl, ?_, ?_, ?_⟩
      · simp only [SimpleCache.lookup]
        rw [List.find?_eq_none.mpr]
        · rfl
        · intro x hx
          have hxp := (List.mem_filter.mp hx).2
          simp only [Bool.not_eq_true'] at hxp
          simp [hxp]
      · simp only [SimpleCache.size, SimpleCache.keyCount]
        rw [List.countP_eq_length_filter]
        have hpart : c.cache.length
            = (c.cache.filter (fun p => p.1 == generate_key topic)).length
              + (c.cache.filter (fun p => !(p.1 == generate_key topic))).length :=
          List.length_eq_length_filter_add _
        omega
      · simp only [SimpleCache.keyCount]
        have hpred := List.find?_some hf
        exact List.countP_pos_iff.mpr ⟨(k0, e0), List.mem_of_find?_eq_some hf, hpred⟩

/-- Claim C9: `clear_expired` removes exactly the entries older than the TTL,
returns their exact count, and leaves every entry within the TTL unchanged
and in place. -/
theorem cache_sweep_removes_exactly_expired {α : Type} (c : SimpleCache α) (now : ℚ) :
    (∀ p : String × CacheEntry α,
        p ∈ ((c.clear_expired now).2).cache ↔
          p ∈ c.cache ∧ now - p.2.timestamp ≤ CACHE_EXPIRATION)
    ∧ (c.clear_expired now).1
        = c.cache.countP (fun p => decide (now - p.2.timestamp > CACHE_EXPIRATION))
    ∧ (c.clear_expired now).1 + ((c.clear_expired now).2).size = c.size
    ∧ ((c.clear_expired now).2).cache.Sublist c.cache := by
  refine ⟨?_, ?_, ?_, ?_⟩
  · intro p
    simp [SimpleCache.clear_expired, List.mem_filter, not_lt]
  · simp only [SimpleCache.clear_expired]
    rw [List.countP_eq_length_filter]
  · simp only [SimpleCache.clear_expired, SimpleCache.size]
    have hpart : c.cache.length
        = (c.cache.filter (fun p => decide (now - p.2.timestamp > CACHE_EXPIRATION))).length
          + (c.cache.filter (fun p => !decide (now - p.2.timestamp > CACHE_EXPIRATION))).length :=
      List.length_eq_length_filter_add _
    omega
  · simp only [SimpleCache.clear_expired]
    exact List.filter_sublist c.cache

/-! ### Claim C8: key normalization and its limits -/

/-- The cache key is a function of the normalized topic. -/
theorem generate_key_congr {s t : String} (h : pyNormalize s = pyNormalize t) :
    generate_key s = generate_key t := by
  unfold generate_key
  rw [h]

/-- After `set s v`, a `get t` within the TTL returns `v` whenever the two
topics generate the same key. -/
theorem cache_set_get_keyed {α : Type} (c0 : SimpleCache α) (s t : String) (v : α)
    (t0 now : ℚ) (hkey : generate_key s = generate_key t)
    (httl : now - t0 ≤ CACHE_EXPIRATION) :
    ((c0.set s v t0).get t now).1 = some v := by
  have hfind : ((c0.set s v t0).cache).find? (fun p => p.1 == generate_key t)
      = some (generate_key s, ⟨v, t0⟩) := by
    simp only [SimpleCache.set]
    apply List.find?_cons_of_pos
    simp [hkey]
  have hexp : ¬(now - (⟨v, t0⟩ : CacheEntry α).timestamp > CACHE_EXPIRATION) :=
    not_lt.mpr httl
  rw [get_of_find_fresh (c0.set s v t0) t now (generate_key s) ⟨v, t0⟩ hfind hexp]

/-- `pyLowerChar` and `pyIsSpace` on the letter `a`. -/
theorem pyLowerChar_a : pyLowerChar 'a' = 'a' := rfl

theorem pyIsSpace_a : pyIsSpace 'a' = false := rfl

theorem dropWhile_replicate_a (n : ℕ) :
    (List.replicate (n + 1) 'a').dropWhile pyIsSpace = List.replicate (n + 1) 'a' := by
  rw [List.replicate_succ, List.dropWhile_cons, pyIsSpace_a]
  simp

/-- Lowercasing fixes the all-`a` topics. -/
theorem pyLower_aStr (n : ℕ) : pyLower (aStr n) = aStr n := by
  show String.mk ((List.replicate (n + 1) 'a').map pyLowerChar) = aStr n
  rw [List.map_replicate, pyLowerChar_a]
  rfl

/-- Stripping fixes the all-`a` topics. -/
theorem pyStrip_aStr (n : ℕ) : pyStrip (aStr n) = aStr n := by
  show String.mk
      ((((List.replicate (n + 1) 'a').dropWhile pyIsSpace).reverse.dropWhile
        pyIsSpace).reverse) = aStr n
  rw [dropWhile_replicate_a, List.reverse_replicate, dropWhile_replicate_a,
    List.reverse_replicate]
  rfl

/-- The all-`a` topics are fixed points of the key normalization. -/
theorem pyNormalize_aStr (n : ℕ) : pyNormalize (aStr n) = aStr n := by
  unfold pyNormalize
  rw [pyLower_aStr, pyStrip_aStr]

/-- The all-`a` topics are pairwise distinct. -/
theorem aStr_injective : Function.Injective aStr := by
  intro m n h
  have hlen := congrArg (fun s : String => s.data.length) h
  simp only [aStr, List.length_replicate] at hlen
  omega

/-- The MD5 digest value is below `2^128`. -/
theorem md5Digest_lt (msg : List ℕ) :
    md5Digest msg < 340282366920938463463374607431768211456 := by
  unfold md5Digest
  rcases hw : md5Words msg with ⟨a, b, c, d⟩
  simp only [hw]
  have ha : a % 4294967296 < 4294967296 := Nat.mod_lt _ (by norm_num)
  have hb : b % 4294967296 < 4294967296 := Nat.mod_lt _ (by norm_num)
  have hc : c % 4294967296 < 4294967296 := Nat.mod_lt _ (by norm_num)
  have hd : d % 4294967296 < 4294967296 := Nat.mod_lt _ (by norm_num)
  have h2 : (4294967296 : ℕ) ^ 2 = 18446744073709551616 := by norm_num
  have h3 : (4294967296 : ℕ) ^ 3 = 79228162514264337593543950336 := by norm_num
  rw [h2, h3]
  omega

/-- Pigeonhole: infinitely many distinct normalized topics, finitely many
128-bit digests, so two distinct all-`a` topics share an MD5 digest. -/
theorem md5_collision_on_aStr :
    ∃ m n : ℕ, m ≠ n
      ∧ md5Digest (utf8Encode (aStr m)) = md5Digest (utf8Encode (aStr n)) := by
  obtain ⟨m, n, hne, heq⟩ := Finite.exists_ne_map_eq_of_infinite
    (fun k : ℕ => (⟨md5Digest (utf8Encode (aStr k)), md5Digest_lt _⟩
      : Fin 340282366920938463463374607431768211456))
  exact ⟨m, n, hne, congrArg Fin.val heq⟩

/-- Claim C8 as frozen is refuted: `get t` after `set s v` can return `v`
although `s` and `t` do not normalize identically, because MD5 maps the
infinitely many distinct normalized topics into finitely many keys, so two
distinct normalized topics share a key. -/
theorem cache_key_equivalence_not_biconditional :
    ¬ (∀ (s t : String) (v : ℕ),
        (((⟨[]⟩ : SimpleCache ℕ).set s v 0).get t 0).1 = some v ↔
          pyNormalize s = pyNormalize t) := by
  intro hall
  obtain ⟨m, n, hne, hdig⟩ := md5_collision_on_aStr
  have hkey : generate_key (aStr m) = generate_key (aStr n) := by
    unfold generate_key md5Hex
    rw [pyNormalize_aStr, pyNormalize_aStr, hdig]
  have hget : (((⟨[]⟩ : SimpleCache ℕ).set (aStr m) 0 0).get (aStr n) 0).1 = some 0 :=
    cache_set_get_keyed ⟨[]⟩ (aStr m) (aStr n) 0 0 0 hkey
      (by norm_num [CACHE_EXPIRATION])
  have hnorm := (hall (aStr m) (aStr n) 0).mp hget
  rw [pyNormalize_aStr, pyNormalize_aStr] at hnorm
  exact hne (aStr_injective hnorm)

/-- Claim C8 (amended): if `s` and `t` normalize identically — lowercased and
stripped they are equal — then `set s v` followed within the TTL by `get t`
returns `v`, because the key is a deterministic hash of the normalized topic;
the converse can fail for topics whose distinct normalized forms collide
under MD5. -/
theorem cache_normalized_topics_hit {α : Type} (c0 : SimpleCache α) (s t : String)
    (v : α) (t0 now : ℚ) (hnorm : pyNormalize s = pyNormalize t)
    (httl : now - t0 ≤ CACHE_EXPIRATION) :
    ((c0.set s v t0).get t now).1 = some v :=
  cache_set_get_keyed c0 s t v t0 now (generate_key_congr hnorm) httl

/-- Witness for the amended C8: the spec's own example
`set("Deep Learning", v)` then `get("  deep learning  ")`. -/
theorem cache_normalized_topics_hit_witness :
    (pyNormalize "Deep Learning" = pyNormalize "  deep learning  "
     ∧ (0 : ℚ) - 0 ≤ CACHE_EXPIRATION)
    ∧ (((⟨[]⟩ : SimpleCache ℕ).set "Deep Learning" 7 0).get "  deep learning  " 0).1
        = some 7 :=
  ⟨⟨by decide, by norm_num [CACHE_EXPIRATION]⟩,
   cache_normalized_topics_hit ⟨[]⟩ "Deep Learning" "  deep learning  " 7 0 0
     (by decide) (by norm_num [CACHE_EXPIRATION])⟩
